import Mathlib

/-!
Verification development for the `flccat` (floating concat) URL protocol
(src/libavformat/floatconcat.c).

The protocol presents a numbered sequence of segment files as one virtual
byte stream.  We give a shallow embedding: the external filesystem /
Segment Accessor is a parameter `FS` mapping a segment index to its
existence, openability, size and read behaviour (filenames are generated
from the single immutable template by instantiating the index, and the
template is fixed per stream, so indexing files by the integer index is
faithful).  The protocol state mirrors `struct flccat_data`; machine
integers are modelled as `Int`, with explicit 32-bit wrapping where the C
code narrows to `int`.  Fallible C functions returning `int`/`int64_t`
status codes are modelled as functions returning the status code paired
with the successor state; loops are modelled with explicit fuel,
returning `none` when the fuel runs out (the C loop would still be
running).
-/

/-- Error codes used by the modelled code paths (AVERROR(e) = -e). -/
def AVERROR_ENOENT : Int := -2

/-- AVERROR(EIO). -/
def AVERROR_IOERR : Int := -5

/-- AVERROR(EINVAL). -/
def AVERROR_EINVAL : Int := -22

/-- AVERROR(ENOSYS), returned by open_filename when the size is unavailable. -/
def AVERROR_ENOSYS : Int := -38

/-- Two's-complement wrap of an Int to the range of a 32-bit C `int`.
Models the implementation-defined (in practice: wrapping) conversion from
`int64_t` to `int`. -/
def wrap32 (x : Int) : Int := (x + 2 ^ 31) % 2 ^ 32 - 2 ^ 31

/-- The `URLContext *uc` pointer held in `flccat_nodes.uc`: either NULL, a
live handle on segment `i`, or a stale pointer to an already-closed
(freed) context (the code never nulls the pointer after `ffurl_close`). -/
inductive Handle where
  | null : Handle
  | openSeg (i : Int) : Handle
  | dangling : Handle
deriving DecidableEq, Repr

/-- Whether a handle value is a live (allocated) handle. -/
def Handle.isOpen : Handle → Bool
  | Handle.openSeg _ => true
  | _ => false

/-- Mirror of `struct flccat_nodes`: the current node's URLContext and its
cached file size. -/
structure flccat_nodes where
  uc : Handle
  size : Int
deriving DecidableEq, Repr

/-- Mirror of `struct flccat_data` plus the observable state of the one
underlying handle (`pos` is the read/seek position of `current.uc`, which
in C lives inside the URLContext) and a `ub` flag recording that an
already-freed handle was closed again (undefined behaviour in C). -/
structure flccat_data where
  current : flccat_nodes
  idx : Int
  filename_fmt : List Char
  segment_start : Int
  pos : Int
  ub : Bool
deriving DecidableEq, Repr

/-- The external filesystem / Segment Accessor, indexed by segment index:
`exist i` is the `access(filename, R_OK)` probe, `openOK i` whether
`ffurl_open` succeeds, `size i` the `ffurl_size` result (negative =
failure), `readFail i p` whether `ffurl_read` at position `p` fails.
The model is a static snapshot; claims about concurrent modification pick
`exist`/`openOK` independently to model the probe/open race. -/
structure FS where
  exist : Int → Bool
  openOK : Int → Bool
  closeOK : Int → Bool
  size : Int → Int
  readFail : Int → Int → Bool

/-- Result of `ffurl_size(data->current.uc)`; on a non-live handle the C
code would be undefined, we return an I/O error code. -/
def ffurlSizeH (fs : FS) (s : flccat_data) : Int :=
  match s.current.uc with
  | Handle.openSeg i => fs.size i
  | _ => AVERROR_IOERR

/-- Model of `ffurl_close(data->current.uc)`: frees the context even when
the protocol close reports an error; closing NULL is a no-op returning 0;
closing an already-freed context is undefined behaviour, recorded in `ub`. -/
def ffurlClose (fs : FS) (s : flccat_data) : Int × flccat_data :=
  match s.current.uc with
  | Handle.openSeg i =>
      ((if fs.closeOK i then 0 else AVERROR_IOERR),
       { s with current := { s.current with uc := Handle.dangling } })
  | Handle.null => (0, s)
  | Handle.dangling => (0, { s with ub := true })

/-- Model of `ffurl_seek(data->current.uc, t, SEEK_SET)` on a seekable
single-file URL: fails on a negative target, else repositions and returns
the new position. -/
def ffurlSeekSet (s : flccat_data) (t : Int) : Int × flccat_data :=
  match s.current.uc with
  | Handle.openSeg _ =>
      if t < 0 then (AVERROR_EINVAL, s) else (t, { s with pos := t })
  | _ => (AVERROR_IOERR, s)

/-- Model of `ffurl_seek(data->current.uc, off, SEEK_END)`. -/
def ffurlSeekEnd (fs : FS) (s : flccat_data) (off : Int) : Int × flccat_data :=
  match s.current.uc with
  | Handle.openSeg i =>
      let t := fs.size i + off
      if t < 0 then (AVERROR_EINVAL, s) else (t, { s with pos := t })
  | _ => (AVERROR_IOERR, s)

/-- Model of `ffurl_seek(data->current.uc, 0, SEEK_CUR)`: the current
local position. -/
def ffurlSeekCur0 (s : flccat_data) : Int :=
  match s.current.uc with
  | Handle.openSeg _ => s.pos
  | _ => AVERROR_IOERR

/-- Model of `ffurl_read(data->current.uc, buf, n)`: delivers up to `n` of
the bytes remaining in the underlying file, advancing the position; only
the byte count is modelled (the claims speak about counts). -/
def ffurlRead (fs : FS) (s : flccat_data) (n : Int) : Int × flccat_data :=
  match s.current.uc with
  | Handle.openSeg i =>
      if fs.readFail i s.pos then (AVERROR_IOERR, s)
      else
        let r := max 0 (min n (fs.size i - s.pos))
        (r, { s with pos := s.pos + r })
  | _ => (AVERROR_IOERR, s)

/-- Mirror of `update_current_size`: reads the size via `ffurl_size`; on
failure returns the error without updating the cache, on success caches it. -/
def update_current_size (fs : FS) (s : flccat_data) : Int × flccat_data :=
  let result := ffurlSizeH fs s
  if result < 0 then (result, s)
  else (result, { s with current := { s.current with size := result } })

/-- Mirror of `open_filename` applied to the file for segment `i`:
`ffurl_open` (on failure `*puc` is NULL and the error propagates), then
`update_current_size` (on failure the fresh handle is closed — leaving the
pointer stale — and AVERROR(ENOSYS) is returned). -/
def open_filename (fs : FS) (i : Int) (s : flccat_data) : Int × flccat_data :=
  if fs.openOK i then
    let s1 : flccat_data :=
      { s with current := { s.current with uc := Handle.openSeg i }, pos := 0 }
    let u := update_current_size fs s1
    if u.1 < 0 then
      let c := ffurlClose fs u.2
      (AVERROR_ENOSYS, c.2)
    else (0, u.2)
  else (AVERROR_ENOENT, { s with current := { s.current with uc := Handle.null } })

/-- Mirror of `open_idx`: open the file named by the template at `data->idx`. -/
def open_idx (fs : FS) (s : flccat_data) : Int × flccat_data :=
  open_filename fs s.idx s

/-- Mirror of `close_current`. -/
def close_current (fs : FS) (s : flccat_data) : Int × flccat_data :=
  ffurlClose fs s

/-- Mirror of `flccat_close`: closes the current node, collapsing the
error to -1/0. -/
def flccat_close (fs : FS) (s : flccat_data) : Int × flccat_data :=
  let c := ffurlClose fs s
  ((if c.1 < 0 then -1 else 0), c.2)

/-- Mirror of `progress`: switch to the file at `idx + direction` if it
exists.  Returns 1 if switched, 0 if no such file exists (`NotSwitched`),
a negative error code otherwise.  Faithfully: the current size is read
(unchecked) before closing, the close and open errors propagate, the
bookkeeping adds the old size going forward and subtracts the freshly
opened node's size going backward, and the new node is sought to 0. -/
def progress (fs : FS) (direction : Int) (s : flccat_data) : Int × flccat_data :=
  if fs.exist (s.idx + direction) then
    let size_first := ffurlSizeH fs s
    let c := close_current fs s
    if c.1 < 0 then c
    else
      let o := open_filename fs (s.idx + direction) c.2
      if o.1 < 0 then o
      else
        let s3 := { o.2 with idx := s.idx + direction }
        let s4 :=
          if direction > 0 then
            { s3 with segment_start := s3.segment_start + size_first }
          else
            { s3 with segment_start := s3.segment_start - s3.current.size }
        let q := ffurlSeekSet s4 0
        if q.1 < 0 then q else (1, q.2)
  else (0, s)

/-- Mirror of `go_forward`. -/
def go_forward (fs : FS) (s : flccat_data) : Int × flccat_data :=
  progress fs 1 s

/-- Mirror of `go_backward`. -/
def go_backward (fs : FS) (s : flccat_data) : Int × flccat_data :=
  progress fs (-1) s

/-- Mirror of `activate_current`: seek the current node to its start. -/
def activate_current (s : flccat_data) : Int × flccat_data :=
  ffurlSeekSet s 0

/-- Mirror of the `while (size > 0)` loop of `flccat_read`, with the
accumulated `total` explicit and fuel for the unbounded loop (`none` =
the C loop is still running after `fuel` iterations).  Note that, as in
the C code, the end-of-file handling after `go_forward` returns 0 is
absent (it sits in an `#if 0 / FIXME` block), so on `NotSwitched` the
loop rewinds the current node via `activate_current` and keeps going. -/
def flccat_read_loop (fs : FS) : Nat → flccat_data → Int → Int → Option (Int × flccat_data)
  | 0, _, _, _ => none
  | fuel + 1, s, total, size =>
    if size > 0 then
      let rd := ffurlRead fs s size
      let result := rd.1
      if result < 0 then some ((if total ≠ 0 then total else result), rd.2)
      else if result = 0 ∨ result < size then
        let g := go_forward fs rd.2
        if g.1 < 0 then some (g.1, g.2)
        else
          let a := activate_current g.2
          if a.1 < 0 then some (a.1, a.2)
          else flccat_read_loop fs fuel a.2 (total + result) (size - result)
      else flccat_read_loop fs fuel rd.2 (total + result) (size - result)
    else some (total, s)

/-- Mirror of `flccat_read`. -/
def flccat_read (fs : FS) (fuel : Nat) (s : flccat_data) (size : Int) :
    Option (Int × flccat_data) :=
  flccat_read_loop fs fuel s 0 size

/-- Final local seek of `seek_relative` and translation to the absolute
virtual position. -/
def sr_final (s : flccat_data) (offset pos : Int) : Int × flccat_data :=
  let q := ffurlSeekSet s (offset + pos)
  if q.1 < 0 then q else (q.2.segment_start + q.1, q.2)

/-- Mirror of the backward loop of `seek_relative`: while `offset + pos <
0` go backward; on `Switched` (1) add the newly current node's size to
`pos`; on `NotSwitched` (0) clamp to the start of the current node and
return; on error return it.  `Sum.inl` is an early return, `Sum.inr`
falls through to the forward phase with the current state and `pos`. -/
def sr_back (fs : FS) : Nat → flccat_data → Int → Int →
    Option (Sum (Int × flccat_data) (flccat_data × Int))
  | 0, _, _, _ => none
  | fuel + 1, s, offset, pos =>
    if offset + pos < 0 then
      let g := go_backward fs s
      if g.1 = 0 then
        let q := ffurlSeekSet g.2 0
        some (Sum.inl (if q.1 < 0 then q else (q.2.segment_start + q.1, q.2)))
      else if g.1 = 1 then
        sr_back fs fuel g.2 offset (pos + g.2.current.size)
      else some (Sum.inl (g.1, g.2))
    else some (Sum.inr (s, pos))

/-- Mirror of the forward loop of `seek_relative`: while `offset + pos >
current.size` go forward; on `Switched` subtract the old node's size
**narrowed to a C `int`** (`int size = data->current.size;` in the
source) from `pos`; on `NotSwitched` refresh the size and seek to the
last byte of the (possibly grown) last node; on error return it. -/
def sr_fwd (fs : FS) : Nat → flccat_data → Int → Int →
    Option (Sum (Int × flccat_data) (flccat_data × Int))
  | 0, _, _, _ => none
  | fuel + 1, s, offset, pos =>
    if offset + pos > s.current.size then
      let size := wrap32 s.current.size
      let g := go_forward fs s
      if g.1 = 0 then
        let u := update_current_size fs g.2
        let q := ffurlSeekEnd fs u.2 (-1)
        some (Sum.inl (if q.1 < 0 then q else (q.2.segment_start + q.1, q.2)))
      else if g.1 = 1 then
        sr_fwd fs fuel g.2 offset (pos - size)
      else some (Sum.inl (g.1, g.2))
    else some (Sum.inr (s, pos))

/-- Mirror of `seek_relative`: record the current local offset, run the
backward then the forward loop, then one local seek, returning the
absolute virtual position. -/
def seek_relative (fs : FS) (fuel : Nat) (s : flccat_data) (pos : Int) :
    Option (Int × flccat_data) :=
  let offset := ffurlSeekCur0 s
  match sr_back fs fuel s offset pos with
  | none => none
  | some (Sum.inl r) => some r
  | some (Sum.inr sp) =>
    match sr_fwd fs fuel sp.1 offset sp.2 with
    | none => none
    | some (Sum.inl r) => some r
    | some (Sum.inr sp2) => some (sr_final sp2.1 offset sp2.2)

/-- Mirror of the `do { progress = go_forward(h); } while (progress > 0)`
drain loop in the SEEK_END branch of `flccat_seek`. -/
def seek_end_drain (fs : FS) : Nat → flccat_data → Option (Int × flccat_data)
  | 0, _ => none
  | fuel + 1, s =>
    let g := go_forward fs s
    if g.1 > 0 then seek_end_drain fs fuel g.2 else some (g.1, g.2)

/-- Mirror of `flccat_seek`.  `whence`: 0 = SEEK_SET, 1 = SEEK_CUR,
2 = SEEK_END, anything else AVERROR(EINVAL). -/
def flccat_seek (fs : FS) (fuel : Nat) (s : flccat_data) (pos : Int)
    (whence : Int) : Option (Int × flccat_data) :=
  if whence = 2 then
    match seek_end_drain fs fuel s with
    | none => none
    | some g =>
      if g.1 < 0 then some (g.1, g.2)
      else
        let a := activate_current g.2
        if a.1 < 0 then some (a.1, a.2)
        else seek_relative fs fuel a.2 (a.2.current.size + pos)
  else if whence = 1 then seek_relative fs fuel s pos
  else if whence = 0 then
    let offset := ffurlSeekCur0 s
    let current_pos := s.segment_start + offset
    seek_relative fs fuel s (pos - current_pos)
  else some (AVERROR_EINVAL, s)

/-- Mirror of the first scan loop of `flccat_open`:
`while (!isdigit(*c_iter) && c_iter > uri) --c_iter;` run from index `i`
downward, returning the final index. -/
def scanNonDigit (l : List Char) : Nat → Nat
  | 0 => 0
  | i + 1 => if (l.getD (i + 1) ' ').isDigit then i + 1 else scanNonDigit l i

/-- Mirror of the second scan loop of `flccat_open`:
`while (isdigit(*c_iter) && c_iter > uri) --c_iter;`. -/
def scanDigit (l : List Char) : Nat → Nat
  | 0 => 0
  | i + 1 => if (l.getD (i + 1) ' ').isDigit then scanDigit l i else i + 1

/-- Numeric value of the leading decimal-digit run of a character list
(0 when there is none) — the core of `strtol(s, NULL, 10)` on a string
starting with digits. -/
def digitsVal (l : List Char) : Nat :=
  (l.takeWhile Char.isDigit).foldl (fun a c => 10 * a + (c.toNat - 48)) 0

/-- Model of `strtol(s, NULL, 10)` on the tail strings the parser feeds
it (no sign, no leading space): value of the leading digit run, clamped
to LONG_MAX. -/
def strtol10 (l : List Char) : Int :=
  min (digitsVal l : Int) (2 ^ 63 - 1)

/-- The filename-pattern parsing portion of `flccat_open`, after the
`"flccat:"` scheme strip: locate the last digit run scanning from the end
of the (strnlen-capped) seed, parse the starting index
(`data->idx = strtol(...)`, a C `int`), and assemble
`filename_fmt = [seed before run] ++ "%d" ++ [seed after run]`.
Fails (AVERROR(ENOENT), modelled as `none`) on an empty seed or when
`num_begin == num_end`. -/
def flccat_parse_core (uri : List Char) : Option (List Char × Int) :=
  if uri = [] then none
  else
    let uri_len := min uri.length 1023
    let i1 := scanNonDigit uri (uri_len - 1)
    let num_end := i1 + 1
    let i2 := scanDigit uri i1
    let num_begin := i2 + 1
    let idx := wrap32 (strtol10 (uri.drop num_begin))
    if num_begin ≠ num_end then
      some (uri.take num_begin ++ ['%', 'd'] ++ (uri.drop num_end).take (uri_len - num_end),
            idx)
    else none

/-- Mirror of the `av_strstart(uri, "flccat:", &uri)` scheme strip
followed by the pattern parse. -/
def flccat_parse (uri : List Char) : Option (List Char × Int) :=
  flccat_parse_core (if ("flccat:".toList).isPrefixOf uri then uri.drop 7 else uri)

/-- Decimal rendering of a natural number, as `snprintf`'s `%d` would
print it (no padding, "0" for zero). -/
def natDec (n : Nat) : List Char :=
  if n = 0 then ['0'] else ((Nat.digits 10 n).map Nat.digitChar).reverse

/-- Decimal rendering of a C int value, as `%d` prints it. -/
def intDec (i : Int) : List Char :=
  if i < 0 then '-' :: natDec (-i).toNat else natDec i.toNat

/-- Substitution of the single `%d` directive of a format string: models
`snprintf(out, n, fmt, idx)` for formats whose only `%` is the one `%d`
the parser inserted. -/
def substPctD : List Char → Int → List Char
  | [], _ => []
  | c :: rest, i =>
    if c = '%' then
      match rest with
      | 'd' :: rest2 => intDec i ++ rest2
      | _ => c :: substPctD rest i
    else c :: substPctD rest i

/-- Mirror of `filename_from_idx`: instantiate the template with the
index; `snprintf` truncates to the 1024-byte buffer (1023 chars + NUL). -/
def filename_from_idx (fmt : List Char) (idx : Int) : List Char :=
  (substPctD fmt idx).take 1023

/-- The last maximal digit run of a string (scanning from the end: skip
trailing non-digits, then take digits); empty when the string has no
digit in its trailing portion. -/
def lastDigitRun (l : List Char) : List Char :=
  ((l.reverse.dropWhile (fun c => !c.isDigit)).takeWhile Char.isDigit).reverse

/-- The zero-initialized `flccat_data` as set up at the top of
`flccat_open` (including `segment_start = 0`). -/
def initData : flccat_data :=
  { current := { uc := Handle.null, size := 0 },
    idx := 0, filename_fmt := [], segment_start := 0, pos := 0, ub := false }

/-- Mirror of `flccat_open`: zero-init, scheme strip + pattern parse
(ENOENT on failure, before anything is opened), store the template and
parsed index, open the seed segment via `open_idx`; on open failure call
`flccat_close` and return the error. -/
def flccat_open (fs : FS) (uri : List Char) : Int × flccat_data :=
  match flccat_parse uri with
  | none => (AVERROR_ENOENT, initData)
  | some fi =>
    let s1 : flccat_data := { initData with filename_fmt := fi.1, idx := fi.2 }
    let o := open_idx fs s1
    if o.1 < 0 then
      let c := flccat_close fs o.2
      (o.1, c.2)
    else (o.1, o.2)

/-- Sum of the sizes of segments `0, 1, …, n-1`. -/
def sumUpTo (fs : FS) : Nat → Int
  | 0 => 0
  | n + 1 => sumUpTo fs n + fs.size (n : Int)

/-- Sum of the sizes of segments `-1, -2, …, -n`. -/
def sumDownTo (fs : FS) : Nat → Int
  | 0 => 0
  | n + 1 => sumDownTo fs n + fs.size (-(n + 1 : Int))

/-- Virtual offset at which segment `i` begins, anchored at segment 0
(the seed): the signed sum of the sizes of the segments strictly between
the seed index and `i`. -/
def segBase (fs : FS) (i : Int) : Int :=
  if 0 ≤ i then sumUpTo fs i.toNat else -sumDownTo fs (-i).toNat

/-- The cumulative-offset invariant of a live stream whose template was
parsed with starting index normalized to 0 (segBase is anchored at the
seed): the open handle is the one for `data->idx`, the cached size is the
file's size, and `segment_start` is the virtual offset at which the
current segment begins. -/
def goodState (fs : FS) (s : flccat_data) : Prop :=
  s.current.uc = Handle.openSeg s.idx ∧
  s.current.size = fs.size s.idx ∧
  s.segment_start = segBase fs s.idx

/-- Spec-side drain loop, following the spec's words for the end-relative
seek: "repeatedly call `progress(Forward)` until it returns `NotSwitched`
(propagate any `Error` immediately)".  It recurses exactly on `Switched`
(result 1); `NotSwitched` (0) and errors are returned to the caller. -/
def drainUntilNotSwitched (fs : FS) : Nat → flccat_data → Option (Int × flccat_data)
  | 0, _ => none
  | fuel + 1, s =>
    let g := progress fs 1 s
    if g.1 = 1 then drainUntilNotSwitched fs fuel g.2 else some (g.1, g.2)

/-- Spec-side end-relative seek, assembled from the spec's words: drain
forward until `NotSwitched`, propagating any error; then reposition the
now-last segment to its start and delegate to
`seekRelative(currentSegment.size + pos)`. -/
def seekEndSpec (fs : FS) (fuel : Nat) (s : flccat_data) (pos : Int) :
    Option (Int × flccat_data) :=
  match drainUntilNotSwitched fs fuel s with
  | none => none
  | some g =>
    if g.1 < 0 then some (g.1, g.2)
    else
      let a := activate_current g.2
      if a.1 < 0 then some (a.1, a.2)
      else seek_relative fs fuel a.2 (a.2.current.size + pos)

/-- Environment for exercising the read loop at end of stream: a single
2-byte segment 0, nothing before or after it. -/
def fsC1 : FS :=
  { exist := fun i => i = 0, openOK := fun i => i = 0, closeOK := fun _ => true,
    size := fun i => if i = 0 then 2 else 0, readFail := fun _ _ => false }

/-- Stream state with segment 0 of `fsC1` open at position 0. -/
def stC1 : flccat_data :=
  { current := { uc := Handle.openSeg 0, size := 2 }, idx := 0,
    filename_fmt := ['a', '%', 'd'], segment_start := 0, pos := 0, ub := false }

/-- Environment with a single empty segment 0. -/
def fsC1e : FS :=
  { exist := fun i => i = 0, openOK := fun i => i = 0, closeOK := fun _ => true,
    size := fun _ => 0, readFail := fun _ _ => false }

/-- Stream state with the empty segment 0 of `fsC1e` open. -/
def stC1e : flccat_data :=
  { current := { uc := Handle.openSeg 0, size := 0 }, idx := 0,
    filename_fmt := ['a', '%', 'd'], segment_start := 0, pos := 0, ub := false }

/-- Environment for the partial-read-then-transition-error scenario:
segments 0 (3 bytes) and 1 (1 byte) are fine; segment 2 passes the
existence probe but its open fails. -/
def fsC2 : FS :=
  { exist := fun i => i = 0 ∨ i = 1 ∨ i = 2,
    openOK := fun i => i = 0 ∨ i = 1, closeOK := fun _ => true,
    size := fun i => if i = 0 then 3 else if i = 1 then 1 else 0,
    readFail := fun _ _ => false }

/-- Stream state with segment 0 of `fsC2` open at position 0. -/
def stC2 : flccat_data :=
  { current := { uc := Handle.openSeg 0, size := 3 }, idx := 0,
    filename_fmt := ['a', '%', 'd'], segment_start := 0, pos := 0, ub := false }

/-- Environment whose segment 0 fails reads at position 0. -/
def fsW2 : FS :=
  { exist := fun i => i = 0, openOK := fun i => i = 0, closeOK := fun _ => true,
    size := fun i => if i = 0 then 4 else 0, readFail := fun i p => i = 0 ∧ p = 0 }

/-- Stream state with segment 0 of `fsW2` open at position 0. -/
def stW2 : flccat_data :=
  { current := { uc := Handle.openSeg 0, size := 4 }, idx := 0,
    filename_fmt := ['a', '%', 'd'], segment_start := 0, pos := 0, ub := false }

/-- Environment for the truncating size subtraction: segment 0 has size
2^31 (one past INT_MAX), segment 1 has size 10. -/
def fsC7 : FS :=
  { exist := fun i => i = 0 ∨ i = 1, openOK := fun _ => true, closeOK := fun _ => true,
    size := fun i => if i = 0 then 2 ^ 31 else if i = 1 then 10 else 0,
    readFail := fun _ _ => false }

/-- Stream state with segment 0 of `fsC7` open at position 0. -/
def stC7 : flccat_data :=
  { current := { uc := Handle.openSeg 0, size := 2 ^ 31 }, idx := 0,
    filename_fmt := ['a', '%', 'd'], segment_start := 0, pos := 0, ub := false }

/-- Environment where the file after the current one probes as existing
but cannot be opened (the probe/open race). -/
def fsW5 : FS :=
  { exist := fun i => i = 0 ∨ i = 1, openOK := fun i => i = 0, closeOK := fun _ => true,
    size := fun i => if i = 0 then 3 else 7, readFail := fun _ _ => false }

/-- Stream state with segment 0 of `fsW5` open. -/
def stW5 : flccat_data :=
  { current := { uc := Handle.openSeg 0, size := 3 }, idx := 0,
    filename_fmt := ['a', '%', 'd'], segment_start := 0, pos := 0, ub := false }

/-- Environment with two well-behaved segments 0 and 1 (sizes 3 and 7). -/
def fsW3 : FS :=
  { exist := fun i => i = 0 ∨ i = 1, openOK := fun i => i = 0 ∨ i = 1,
    closeOK := fun _ => true,
    size := fun i => if i = 0 then 3 else if i = 1 then 7 else 0,
    readFail := fun _ _ => false }

/-- Stream state with segment 0 of `fsW3` open at position 2. -/
def stW3 : flccat_data :=
  { current := { uc := Handle.openSeg 0, size := 3 }, idx := 0,
    filename_fmt := ['a', '%', 'd'], segment_start := 0, pos := 2, ub := false }

/-- Environment with segments -1 (size 4) and 0 (size 3), both fine. -/
def fsW9 : FS :=
  { exist := fun i => i = -1 ∨ i = 0, openOK := fun i => i = -1 ∨ i = 0,
    closeOK := fun _ => true,
    size := fun i => if i = -1 then 4 else if i = 0 then 3 else 0,
    readFail := fun _ _ => false }

/-- Stream state at the seed segment 0 of `fsW9`. -/
def stW9 : flccat_data :=
  { current := { uc := Handle.openSeg 0, size := 3 }, idx := 0,
    filename_fmt := ['a', '%', 'd'], segment_start := 0, pos := 1, ub := false }

/-- Environment whose seed segment 5 cannot be opened at all. -/
def fsW8 : FS :=
  { exist := fun _ => false, openOK := fun _ => false, closeOK := fun _ => true,
    size := fun _ => 0, readFail := fun _ _ => false }

/-- Environment for the non-atomicity scenario: segment 1 probes as
existing but its open fails; segment 0 closes fine. -/
def fsW10 : FS :=
  { exist := fun i => i = 0 ∨ i = 1, openOK := fun i => i = 0, closeOK := fun _ => true,
    size := fun i => if i = 0 then 6 else 0, readFail := fun _ _ => false }

/-- Stream state with segment 0 of `fsW10` open. -/
def stW10 : flccat_data :=
  { current := { uc := Handle.openSeg 0, size := 6 }, idx := 0,
    filename_fmt := ['a', '%', 'd'], segment_start := 0, pos := 4, ub := false }

/-- Auxiliary: with a single empty segment open at position 0, each
iteration of the read loop returns to exactly the same arguments (read 0
bytes, `NotSwitched`, rewind), so the loop never terminates. -/
theorem flccat_read_loop_empty_diverges (fuel : Nat) :
    flccat_read_loop fsC1e fuel stC1e 0 1 = none := by
  induction fuel with
  | zero => rfl
  | succ n ih => exact ih

/-- C1: the claim fails on the code.  When `progress(Forward)` returns
`NotSwitched`, the (disabled, `#if 0 / FIXME`) end-of-file handling never
runs: the loop rewinds the current segment and keeps reading.  With one
2-byte segment, a read of 5 bytes returns 5 (re-delivering the same
bytes) instead of terminating with the 2 accumulated bytes; with one
empty segment the loop never terminates at all. -/
theorem c1_read_not_terminating_on_notswitched :
    (flccat_read fsC1 6 stC1 5).map Prod.fst = some 5 ∧
    ∀ fuel : Nat, flccat_read fsC1e fuel stC1e 1 = none := by
  refine ⟨rfl, ?_⟩
  intro fuel
  exact flccat_read_loop_empty_diverges fuel

/-- C7: the claim fails on the code.  `seek_relative` narrows the skipped
segment's size to a C `int` (`int size = data->current.size;`), so for a
segment of size 2^31 it subtracts -2^31 instead of 2^31: seeking forward
by 2^31 + 5 across a 2^31-byte segment followed by a 10-byte segment
lands at virtual offset 2^31 + 9 (clamped at the stream end) instead of
2^31 + 5. -/
theorem c7_seek_relative_truncates_size :
    wrap32 (2 ^ 31) = -(2 ^ 31) ∧
    (seek_relative fsC7 5 stC7 (2 ^ 31 + 5)).map Prod.fst = some (2 ^ 31 + 9) := by
  exact ⟨by decide, rfl⟩

/-- C2 (counterexample): in `fsC2`, 4 bytes are deliverable (a request of
4 returns 4), but a request of 5 — after those same 4 bytes have been
delivered — hits an open failure in the forward transition and returns
the error (-2) instead of the partial count 4. -/
theorem c2_transition_error_discards_partial :
    (flccat_read fsC2 6 stC2 4).map Prod.fst = some 4 ∧
    (flccat_read fsC2 6 stC2 5).map Prod.fst = some (-2) := by
  exact ⟨rfl, rfl⟩

/-- C2 (amended): only an error of the underlying segment read follows
the partial-count rule (return `total` if nonzero, else the error); an
error from the forward segment transition, or from the subsequent
repositioning, is returned as-is even when bytes were already delivered
in this call. -/
theorem c2_read_error_policy (fs : FS) (fuel : Nat) (s : flccat_data)
    (total size : Int) (hf : 0 < fuel) (hs : 0 < size) :
    ((ffurlRead fs s size).1 < 0 →
      flccat_read_loop fs fuel s total size =
        some ((if total ≠ 0 then total else (ffurlRead fs s size).1),
              (ffurlRead fs s size).2)) ∧
    (0 ≤ (ffurlRead fs s size).1 →
      ((ffurlRead fs s size).1 = 0 ∨ (ffurlRead fs s size).1 < size) →
      (go_forward fs (ffurlRead fs s size).2).1 < 0 →
      flccat_read_loop fs fuel s total size =
        some (go_forward fs (ffurlRead fs s size).2)) ∧
    (0 ≤ (ffurlRead fs s size).1 →
      ((ffurlRead fs s size).1 = 0 ∨ (ffurlRead fs s size).1 < size) →
      0 ≤ (go_forward fs (ffurlRead fs s size).2).1 →
      (activate_current (go_forward fs (ffurlRead fs s size).2).2).1 < 0 →
      flccat_read_loop fs fuel s total size =
        some (activate_current (go_forward fs (ffurlRead fs s size).2).2)) := by
  obtain ⟨n, rfl⟩ : ∃ n, fuel = n + 1 := ⟨fuel - 1, by omega⟩
  refine ⟨?_, ?_, ?_⟩
  · intro h
    simp only [flccat_read_loop, if_pos hs, if_pos h]
  · intro h0 hlt herr
    have h0' : ¬((ffurlRead fs s size).1 < 0) := not_lt.mpr h0
    simp only [flccat_read_loop, if_pos hs, if_neg h0', if_pos hlt, if_pos herr]
  · intro h0 hlt hg ha
    have h0' : ¬((ffurlRead fs s size).1 < 0) := not_lt.mpr h0
    have hg' : ¬((go_forward fs (ffurlRead fs s size).2).1 < 0) := not_lt.mpr hg
    simp only [flccat_read_loop, if_pos hs, if_neg h0', if_pos hlt, if_neg hg',
      if_pos ha]

/-- Witness for `c2_read_error_policy`: in `fsW2` the underlying read at
position 0 fails; with 7 bytes already accumulated the loop returns 7. -/
theorem c2_read_error_policy_witness :
    flccat_read_loop fsW2 3 stW2 7 4 =
      some ((if (7 : Int) ≠ 0 then (7 : Int) else (ffurlRead fsW2 stW2 4).1),
            (ffurlRead fsW2 stW2 4).2) :=
  (c2_read_error_policy fsW2 3 stW2 7 4 (by norm_num) (by norm_num)).1 (by decide)

/-- C5: when the candidate segment passes the existence probe but its
open fails — either `ffurl_open` itself fails (the file vanished after
the probe) or its size cannot be determined — `progress` returns the
propagated negative error, never `NotSwitched` (0). -/
theorem c5_progress_open_fail_is_error (fs : FS) (dir : Int) (s : flccat_data)
    (hcur : s.current.uc = Handle.openSeg s.idx)
    (hex : fs.exist (s.idx + dir) = true)
    (hclose : fs.closeOK s.idx = true)
    (hopen : fs.openOK (s.idx + dir) = false ∨ fs.size (s.idx + dir) < 0) :
    (progress fs dir s).1 < 0 := by
  rcases hopen with h | h
  · simp [progress, close_current, ffurlClose, open_filename, hcur, hex, hclose, h,
      AVERROR_ENOENT]
  · by_cases h2 : fs.openOK (s.idx + dir)
    · simp [progress, close_current, ffurlClose, open_filename, update_current_size,
        ffurlSizeH, hcur, hex, hclose, h, h2, AVERROR_ENOSYS]
    · simp [progress, close_current, ffurlClose, open_filename, hcur, hex, hclose, h2,
        AVERROR_ENOENT]

/-- Witness for `c5_progress_open_fail_is_error` at `fsW5`/`stW5`:
segment 1 probes as existing but cannot be opened. -/
theorem c5_progress_open_fail_is_error_witness :
    (progress fsW5 1 stW5).1 < 0 :=
  c5_progress_open_fail_is_error fsW5 1 stW5 (by decide) (by decide) (by decide)
    (Or.inl (by decide))

/-- C10: `progress` is not atomic on error: when the current segment
closes successfully but the candidate's `ffurl_open` fails, the returned
state has the previous segment closed and not reopened — `current.uc` is
NULL (no live handle at all) and `idx` still holds the old index. -/
theorem c10_progress_error_leaves_closed (fs : FS) (dir : Int) (s : flccat_data)
    (hcur : s.current.uc = Handle.openSeg s.idx)
    (hex : fs.exist (s.idx + dir) = true)
    (hclose : fs.closeOK s.idx = true)
    (hopen : fs.openOK (s.idx + dir) = false) :
    (progress fs dir s).1 < 0 ∧
    (progress fs dir s).2.current.uc = Handle.null ∧
    Handle.isOpen (progress fs dir s).2.current.uc = false ∧
    (progress fs dir s).2.idx = s.idx := by
  simp [progress, close_current, ffurlClose, open_filename, Handle.isOpen, hcur, hex,
    hclose, hopen, AVERROR_ENOENT]

/-- Witness for `c10_progress_error_leaves_closed` at `fsW10`/`stW10`. -/
theorem c10_progress_error_leaves_closed_witness :
    (progress fsW10 1 stW10).1 < 0 ∧
    (progress fsW10 1 stW10).2.current.uc = Handle.null ∧
    Handle.isOpen (progress fsW10 1 stW10).2.current.uc = false ∧
    (progress fsW10 1 stW10).2.idx = stW10.idx :=
  c10_progress_error_leaves_closed fsW10 1 stW10 (by decide) (by decide) (by decide)
    (by decide)

/-- Characterization: when the candidate file does not exist, `progress`
returns `NotSwitched` and leaves the state untouched. -/
theorem progress_eq_notexist (fs : FS) (dir : Int) (s : flccat_data)
    (hex : fs.exist (s.idx + dir) = false) :
    progress fs dir s = (0, s) := by
  simp [progress, hex]

/-- Characterization: failing close propagates AVERROR(EIO) with the
handle freed. -/
theorem progress_eq_closefail (fs : FS) (dir : Int) (s : flccat_data)
    (hcur : s.current.uc = Handle.openSeg s.idx)
    (hex : fs.exist (s.idx + dir) = true)
    (hcl : fs.closeOK s.idx = false) :
    progress fs dir s =
      (AVERROR_IOERR,
       { s with current := { s.current with uc := Handle.dangling } }) := by
  simp [progress, close_current, ffurlClose, hcur, hex, hcl, AVERROR_IOERR]

/-- Characterization: failing `ffurl_open` propagates AVERROR(ENOENT)
with `current.uc` NULL and the index unchanged. -/
theorem progress_eq_openfail (fs : FS) (dir : Int) (s : flccat_data)
    (hcur : s.current.uc = Handle.openSeg s.idx)
    (hex : fs.exist (s.idx + dir) = true)
    (hcl : fs.closeOK s.idx = true)
    (hop : fs.openOK (s.idx + dir) = false) :
    progress fs dir s =
      (AVERROR_ENOENT,
       { s with current := { s.current with uc := Handle.null } }) := by
  simp [progress, close_current, ffurlClose, open_filename, hcur, hex, hcl, hop,
    AVERROR_ENOENT]

/-- Characterization: unavailable size of the freshly opened candidate
propagates AVERROR(ENOSYS); the fresh handle was closed again (stale
pointer), the index is unchanged. -/
theorem progress_eq_sizefail (fs : FS) (dir : Int) (s : flccat_data)
    (hcur : s.current.uc = Handle.openSeg s.idx)
    (hex : fs.exist (s.idx + dir) = true)
    (hcl : fs.closeOK s.idx = true)
    (hop : fs.openOK (s.idx + dir) = true)
    (hsg : fs.size (s.idx + dir) < 0) :
    progress fs dir s =
      (AVERROR_ENOSYS,
       { s with current := { s.current with uc := Handle.dangling }, pos := 0 }) := by
  simp [progress, close_current, ffurlClose, open_filename, update_current_size,
    ffurlSizeH, hcur, hex, hcl, hop, hsg, AVERROR_ENOSYS]

/-- Characterization of a successful forward switch: index +1, fresh
handle on the next segment positioned at 0 with its size cached, and
`segment_start` increased by the size of the segment just left. -/
theorem progress_fwd_eq (fs : FS) (s : flccat_data)
    (hcur : s.current.uc = Handle.openSeg s.idx)
    (hex : fs.exist (s.idx + 1) = true)
    (hcl : fs.closeOK s.idx = true)
    (hop : fs.openOK (s.idx + 1) = true)
    (hsg : ¬fs.size (s.idx + 1) < 0) :
    progress fs 1 s =
      (1, { current := { uc := Handle.openSeg (s.idx + 1), size := fs.size (s.idx + 1) },
            idx := s.idx + 1, filename_fmt := s.filename_fmt,
            segment_start := s.segment_start + fs.size s.idx, pos := 0,
            ub := s.ub }) := by
  simp [progress, close_current, ffurlClose, open_filename, update_current_size,
    ffurlSizeH, ffurlSeekSet, hcur, hex, hcl, hop, hsg]

/-- Characterization of a successful backward switch: index -1, fresh
handle on the previous segment positioned at 0 with its size cached, and
`segment_start` decreased by the size of the segment switched into. -/
theorem progress_bwd_eq (fs : FS) (s : flccat_data)
    (hcur : s.current.uc = Handle.openSeg s.idx)
    (hex : fs.exist (s.idx + -1) = true)
    (hcl : fs.closeOK s.idx = true)
    (hop : fs.openOK (s.idx + -1) = true)
    (hsg : ¬fs.size (s.idx + -1) < 0) :
    progress fs (-1) s =
      (1, { current := { uc := Handle.openSeg (s.idx + -1), size := fs.size (s.idx + -1) },
            idx := s.idx + -1, filename_fmt := s.filename_fmt,
            segment_start := s.segment_start - fs.size (s.idx + -1), pos := 0,
            ub := s.ub }) := by
  simp [progress, close_current, ffurlClose, open_filename, update_current_size,
    ffurlSizeH, ffurlSeekSet, hcur, hex, hcl, hop, hsg]

/-- The virtual start offset of segment `i + 1` is that of segment `i`
plus the size of segment `i`. -/
theorem segBase_succ (fs : FS) (i : Int) :
    segBase fs (i + 1) = segBase fs i + fs.size i := by
  unfold segBase
  rcases le_or_lt 0 i with h | h
  · rw [if_pos (by omega : (0 : Int) ≤ i + 1), if_pos h]
    have h1 : (i + 1).toNat = i.toNat + 1 := by omega
    have h2 : ((i.toNat : Int)) = i := Int.toNat_of_nonneg h
    rw [h1, sumUpTo, h2]
  · by_cases h1 : i = -1
    · subst h1
      simp [sumUpTo, sumDownTo]
    · rw [if_neg (by omega), if_neg (by omega)]
      have h2 : (-i).toNat = (-(i + 1)).toNat + 1 := by omega
      have h3 : (-(((-(i + 1)).toNat : Int) + 1)) = i := by omega
      rw [h2, sumDownTo]
      rw [h3]
      ring

/-- The virtual start offset of segment `i - 1` is that of segment `i`
minus the size of segment `i - 1`. -/
theorem segBase_pred (fs : FS) (i : Int) :
    segBase fs (i - 1) = segBase fs i - fs.size (i - 1) := by
  have h := segBase_succ fs (i - 1)
  rw [sub_add_cancel] at h
  omega

/-- ffurl_close never changes `segment_start`. -/
theorem ffurlClose_segment_start (fs : FS) (s : flccat_data) :
    (ffurlClose fs s).2.segment_start = s.segment_start := by
  cases h : s.current.uc <;> simp [ffurlClose, h]

/-- flccat_close never changes `segment_start`. -/
theorem flccat_close_segment_start (fs : FS) (s : flccat_data) :
    (flccat_close fs s).2.segment_start = s.segment_start := by
  show (ffurlClose fs s).2.segment_start = s.segment_start
  exact ffurlClose_segment_start fs s

/-- open_filename never changes `segment_start`. -/
theorem open_filename_segment_start (fs : FS) (i : Int) (s : flccat_data) :
    (open_filename fs i s).2.segment_start = s.segment_start := by
  by_cases hop : fs.openOK i = true
  · by_cases hsg : fs.size i < 0
    · simp [open_filename, update_current_size, ffurlSizeH, ffurlClose, hop, hsg]
    · simp [open_filename, update_current_size, ffurlSizeH, hop, hsg]
  · have hop' : fs.openOK i = false := by simpa using hop
    simp [open_filename, hop']

/-- C3: a successful `progress` (result 0 or 1) preserves the
cumulative-offset invariant `segment_start = segBase idx` (so
`segment_start` + local offset is the correct absolute virtual offset),
and after a successful forward switch the new local position is 0 and
`segment_start` grew by exactly the size of the segment just left. -/
theorem c3_cumulative_offset_invariant (fs : FS) (dir : Int) (s : flccat_data)
    (hgood : goodState fs s) (hdir : dir = 1 ∨ dir = -1) :
    (0 ≤ (progress fs dir s).1 → goodState fs (progress fs dir s).2) ∧
    ((progress fs dir s).1 = 1 → dir = 1 →
      (progress fs dir s).2.pos = 0 ∧
      (progress fs dir s).2.segment_start = s.segment_start + fs.size s.idx) := by
  obtain ⟨hcur, hsz, hss⟩ := hgood
  by_cases hex : fs.exist (s.idx + dir) = true
  · by_cases hcl : fs.closeOK s.idx = true
    · by_cases hop : fs.openOK (s.idx + dir) = true
      · by_cases hsg : fs.size (s.idx + dir) < 0
        · rw [progress_eq_sizefail fs dir s hcur hex hcl hop hsg]
          constructor
          · intro h; norm_num [AVERROR_ENOSYS] at h
          · intro h; norm_num [AVERROR_ENOSYS] at h
        · rcases hdir with rfl | rfl
          · rw [progress_fwd_eq fs s hcur hex hcl hop hsg]
            refine ⟨fun _ => ⟨rfl, rfl, ?_⟩, fun _ _ => ⟨rfl, rfl⟩⟩
            show s.segment_start + fs.size s.idx = segBase fs (s.idx + 1)
            rw [hss, segBase_succ]
          · rw [progress_bwd_eq fs s hcur hex hcl hop hsg]
            refine ⟨fun _ => ⟨rfl, rfl, ?_⟩, fun _ h2 => by norm_num at h2⟩
            show s.segment_start - fs.size (s.idx + -1) = segBase fs (s.idx + -1)
            have e : s.idx + -1 = s.idx - 1 := by ring
            rw [hss, e, segBase_pred]
      · have hop' : fs.openOK (s.idx + dir) = false := by simpa using hop
        rw [progress_eq_openfail fs dir s hcur hex hcl hop']
        constructor
        · intro h; norm_num [AVERROR_ENOENT] at h
        · intro h; norm_num [AVERROR_ENOENT] at h
    · have hcl' : fs.closeOK s.idx = false := by simpa using hcl
      rw [progress_eq_closefail fs dir s hcur hex hcl']
      constructor
      · intro h; norm_num [AVERROR_IOERR] at h
      · intro h; norm_num [AVERROR_IOERR] at h
  · have hex' : fs.exist (s.idx + dir) = false := by simpa using hex
    rw [progress_eq_notexist fs dir s hex']
    exact ⟨fun _ => ⟨hcur, hsz, hss⟩, fun h => by norm_num at h⟩

/-- Witness for `c3_cumulative_offset_invariant` at `fsW3`/`stW3`,
forward direction. -/
theorem c3_cumulative_offset_invariant_witness :
    (0 ≤ (progress fsW3 1 stW3).1 → goodState fsW3 (progress fsW3 1 stW3).2) ∧
    ((progress fsW3 1 stW3).1 = 1 → (1 : Int) = 1 →
      (progress fsW3 1 stW3).2.pos = 0 ∧
      (progress fsW3 1 stW3).2.segment_start = stW3.segment_start + fsW3.size stW3.idx) :=
  c3_cumulative_offset_invariant fsW3 1 stW3 ⟨rfl, rfl, rfl⟩ (Or.inl rfl)

/-- C9: virtual offsets are anchored at the seed segment: `flccat_open`
always leaves `segment_start = 0`, and every successful backward switch
decreases `segment_start` by the size of the segment switched into — in
particular, from the seed (or anywhere at `segment_start ≤ 0`) it becomes
strictly negative when that segment is nonempty. -/
theorem c9_seed_anchored_negative_offsets (fs : FS) (uri : List Char)
    (s : flccat_data) (hcur : s.current.uc = Handle.openSeg s.idx) :
    (flccat_open fs uri).2.segment_start = 0 ∧
    ((progress fs (-1) s).1 = 1 →
      (progress fs (-1) s).2.segment_start = s.segment_start - fs.size (s.idx - 1) ∧
      (s.segment_start ≤ 0 → 0 < fs.size (s.idx - 1) →
        (progress fs (-1) s).2.segment_start < 0)) := by
  constructor
  · cases hp : flccat_parse uri with
    | none => simp [flccat_open, hp, initData]
    | some fi =>
      simp only [flccat_open, hp]
      split
      · rw [flccat_close_segment_start]
        rw [show (open_idx fs { initData with filename_fmt := fi.1, idx := fi.2 }).2.segment_start =
          ({ initData with filename_fmt := fi.1, idx := fi.2 } : flccat_data).segment_start
          from open_filename_segment_start fs fi.2 _]
        rfl
      · exact open_filename_segment_start fs fi.2 _
  · intro h1
    by_cases hex : fs.exist (s.idx + -1) = true
    · by_cases hcl : fs.closeOK s.idx = true
      · by_cases hop : fs.openOK (s.idx + -1) = true
        · by_cases hsg : fs.size (s.idx + -1) < 0
          · rw [progress_eq_sizefail fs (-1) s hcur hex hcl hop hsg] at h1
            norm_num [AVERROR_ENOSYS] at h1
          · rw [progress_bwd_eq fs s hcur hex hcl hop hsg]
            have e : s.idx + -1 = s.idx - 1 := by ring
            rw [e]
            refine ⟨rfl, fun h2 h3 => ?_⟩
            show s.segment_start - fs.size (s.idx - 1) < 0
            omega
        · have hop' : fs.openOK (s.idx + -1) = false := by simpa using hop
          rw [progress_eq_openfail fs (-1) s hcur hex hcl hop'] at h1
          norm_num [AVERROR_ENOENT] at h1
      · have hcl' : fs.closeOK s.idx = false := by simpa using hcl
        rw [progress_eq_closefail fs (-1) s hcur hex hcl'] at h1
        norm_num [AVERROR_IOERR] at h1
    · have hex' : fs.exist (s.idx + -1) = false := by simpa using hex
      rw [progress_eq_notexist fs (-1) s hex'] at h1
      norm_num at h1

/-- Witness for `c9_seed_anchored_negative_offsets` at `fsW9`/`stW9`
with seed path "a0". -/
theorem c9_seed_anchored_negative_offsets_witness :
    (flccat_open fsW9 ['a', '0']).2.segment_start = 0 ∧
    ((progress fsW9 (-1) stW9).1 = 1 →
      (progress fsW9 (-1) stW9).2.segment_start =
        stW9.segment_start - fsW9.size (stW9.idx - 1) ∧
      (stW9.segment_start ≤ 0 → 0 < fsW9.size (stW9.idx - 1) →
        (progress fsW9 (-1) stW9).2.segment_start < 0)) :=
  c9_seed_anchored_negative_offsets fsW9 ['a', '0'] stW9 rfl

/-- C8: every failure of `flccat_open` — no trailing digit run in the
seed, an unopenable seed segment, or a seed segment whose size cannot be
determined — leaves no live handle allocated in the resulting state. -/
theorem c8_open_failure_no_partial_state (fs : FS) (uri : List Char)
    (h : (flccat_open fs uri).1 < 0) :
    Handle.isOpen (flccat_open fs uri).2.current.uc = false := by
  cases hp : flccat_parse uri with
  | none => simp [flccat_open, hp, initData, Handle.isOpen]
  | some fi =>
    by_cases hop : fs.openOK fi.2 = true
    · by_cases hsg : fs.size fi.2 < 0
      · simp [flccat_open, open_idx, open_filename, update_current_size, ffurlSizeH,
          ffurlClose, flccat_close, hp, hop, hsg, AVERROR_ENOSYS, Handle.isOpen,
          initData]
      · exfalso
        simp [flccat_open, open_idx, open_filename, update_current_size, ffurlSizeH,
          hp, hop, hsg, initData] at h
    · have hop' : fs.openOK fi.2 = false := by simpa using hop
      simp [flccat_open, open_idx, open_filename, flccat_close, ffurlClose, hp, hop',
        Handle.isOpen, initData, AVERROR_ENOENT]

/-- Witness for `c8_open_failure_no_partial_state`: in `fsW8` the seed
segment of "a1" cannot be opened. -/
theorem c8_open_failure_no_partial_state_witness :
    Handle.isOpen (flccat_open fsW8 ['a', '1']).2.current.uc = false :=
  c8_open_failure_no_partial_state fsW8 ['a', '1'] (by decide)

/-- The switch operation can only report Switched (1), NotSwitched (0),
or a negative error. -/
theorem progress_result_cases (fs : FS) (dir : Int) (s : flccat_data) :
    (progress fs dir s).1 = 1 ∨ (progress fs dir s).1 = 0 ∨ (progress fs dir s).1 < 0 := by
  simp only [progress]
  split
  · split
    · rename_i h; right; right; exact h
    · split
      · rename_i h; right; right; exact h
      · split
        · split
          · rename_i h; right; right; exact h
          · left; rfl
        · split
          · rename_i h; right; right; exact h
          · left; rfl
  · right; left; rfl

/-- The C drain loop (`do progress while (progress > 0)`) coincides with
the spec's drain loop (repeat exactly while `Switched`), because
`progress` never returns a positive value other than 1. -/
theorem seek_end_drain_eq (fs : FS) (fuel : Nat) (s : flccat_data) :
    seek_end_drain fs fuel s = drainUntilNotSwitched fs fuel s := by
  induction fuel generalizing s with
  | zero => rfl
  | succ n ih =>
    simp only [seek_end_drain, drainUntilNotSwitched, go_forward]
    rcases progress_result_cases fs 1 s with h | h | h
    · rw [if_pos (by omega : (progress fs 1 s).1 > 0), if_pos h]
      exact ih _
    · rw [if_neg (by omega : ¬(progress fs 1 s).1 > 0), if_neg (by omega : ¬(progress fs 1 s).1 = 1)]
    · rw [if_neg (by omega : ¬(progress fs 1 s).1 > 0), if_neg (by omega : ¬(progress fs 1 s).1 = 1)]

/-- C6: the SEEK_END branch of `flccat_seek` equals the spec-side
composition: drain forward until `NotSwitched` (propagating any error
immediately), reposition the now-last segment to its start, and return
the result of `seek_relative(currentSegment.size + pos)`. -/
theorem c6_seek_end_matches_spec (fs : FS) (fuel : Nat) (s : flccat_data)
    (pos : Int) :
    flccat_seek fs fuel s pos 2 = seekEndSpec fs fuel s pos := by
  unfold flccat_seek seekEndSpec
  rw [if_pos rfl, seek_end_drain_eq]

/-- A decimal digit character has code between 48 and 57. -/
theorem isDigit_toNat_bounds {c : Char} (h : c.isDigit = true) :
    48 ≤ c.toNat ∧ c.toNat ≤ 57 := by
  simp only [Char.isDigit, Bool.and_eq_true, decide_eq_true_eq] at h
  obtain ⟨h1, h2⟩ := h
  exact ⟨UInt32.le_toNat_of_le (by norm_num) h1, UInt32.toNat_le_of_le (by norm_num) h2⟩

/-- takeWhile passes over a block that wholly satisfies the test. -/
theorem takeWhile_append_all {p : Char → Bool} (u v : List Char)
    (h : ∀ x ∈ u, p x = true) :
    (u ++ v).takeWhile p = u ++ v.takeWhile p := by
  induction u with
  | nil => simp
  | cons a t ih =>
    have ha := h a (by simp)
    simp [List.takeWhile_cons, ha, ih (fun x hx => h x (by simp [hx]))]

/-- takeWhile of a list that wholly satisfies the test is the list. -/
theorem takeWhile_eq_self_all {p : Char → Bool} (u : List Char)
    (h : ∀ x ∈ u, p x = true) : u.takeWhile p = u := by
  have h2 := takeWhile_append_all u [] h
  simpa using h2

/-- takeWhile of a list none of whose elements satisfies the test. -/
theorem takeWhile_eq_nil_all {p : Char → Bool} (v : List Char)
    (h : ∀ x ∈ v, p x = false) : v.takeWhile p = [] := by
  cases v with
  | nil => rfl
  | cons a t => simp [List.takeWhile_cons, h a (by simp)]

/-- dropWhile discards a block that wholly satisfies the test. -/
theorem dropWhile_append_all {p : Char → Bool} (u v : List Char)
    (h : ∀ x ∈ u, p x = true) :
    (u ++ v).dropWhile p = v.dropWhile p := by
  induction u with
  | nil => simp
  | cons a t ih =>
    simp [List.dropWhile_cons, h a (by simp), ih (fun x hx => h x (by simp [hx]))]

/-- dropWhile stops at a head that fails the test. -/
theorem dropWhile_eq_self_head {p : Char → Bool} (a : Char) (t : List Char)
    (h : p a = false) : (a :: t).dropWhile p = a :: t := by
  simp [List.dropWhile_cons, h]

/-- The first scan loop lands on index `t` when the character there is a
digit (or `t` is 0) and everything strictly between `t` and the start
index is a non-digit. -/
theorem scanNonDigit_eq_of (l : List Char) (t : Nat) :
    ∀ i, t ≤ i →
      ((l.getD t ' ').isDigit = true ∨ t = 0) →
      (∀ j, t < j → j ≤ i → (l.getD j ' ').isDigit = false) →
      scanNonDigit l i = t := by
  intro i
  induction i with
  | zero =>
    intro hle _ _
    have ht : t = 0 := by omega
    subst ht
    rfl
  | succ n ih =>
    intro hle hdig hnon
    by_cases ht : t = n + 1
    · subst ht
      have hd : (l.getD (n + 1) ' ').isDigit = true := hdig.resolve_right (by omega)
      rw [show scanNonDigit l (n + 1) =
        if (l.getD (n + 1) ' ').isDigit = true then n + 1 else scanNonDigit l n from rfl,
        if_pos hd]
    · have h2 : t ≤ n := by omega
      have hnd : (l.getD (n + 1) ' ').isDigit = false := hnon (n + 1) (by omega) (le_refl _)
      simp only [scanNonDigit, hnd, Bool.false_eq_true, if_false]
      exact ih h2 hdig (fun j hj1 hj2 => hnon j hj1 (by omega))

/-- The second scan loop lands on index `t` when the character there is a
non-digit (or `t` is 0) and everything strictly between `t` and the start
index is a digit. -/
theorem scanDigit_eq_of (l : List Char) (t : Nat) :
    ∀ i, t ≤ i →
      ((l.getD t ' ').isDigit = false ∨ t = 0) →
      (∀ j, t < j → j ≤ i → (l.getD j ' ').isDigit = true) →
      scanDigit l i = t := by
  intro i
  induction i with
  | zero =>
    intro hle _ _
    have ht : t = 0 := by omega
    subst ht
    rfl
  | succ n ih =>
    intro hle hdig hnon
    by_cases ht : t = n + 1
    · subst ht
      have hd : (l.getD (n + 1) ' ').isDigit = false := hdig.resolve_right (by omega)
      rw [show scanDigit l (n + 1) =
        if (l.getD (n + 1) ' ').isDigit = true then scanDigit l n else n + 1 from rfl,
        if_neg (by rw [hd]; simp)]
    · have h2 : t ≤ n := by omega
      have hdd : (l.getD (n + 1) ' ').isDigit = true := hnon (n + 1) (by omega) (le_refl _)
      simp only [scanDigit, hdd, if_true]
      exact ih h2 hdig (fun j hj1 hj2 => hnon j hj1 (by omega))

/-- Characters produced by `Nat.digitChar` for decimal digits are digits. -/
theorem digitChar_isDigit {d : Nat} (h : d < 10) :
    (Nat.digitChar d).isDigit = true := by
  interval_cases d <;> decide

/-- Decoding a decimal digit character back to its value. -/
theorem digitChar_toNat {d : Nat} (h : d < 10) :
    (Nat.digitChar d).toNat - 48 = d := by
  interval_cases d <;> decide

/-- Every character of the decimal rendering is a digit. -/
theorem natDec_all_digits (v : Nat) : ∀ c ∈ natDec v, c.isDigit = true := by
  intro c hc
  unfold natDec at hc
  by_cases h : v = 0
  · rw [if_pos h] at hc
    simp at hc
    subst hc
    decide
  · rw [if_neg h] at hc
    rw [List.mem_reverse] at hc
    obtain ⟨d, hd, rfl⟩ := List.mem_map.mp hc
    exact digitChar_isDigit (Nat.digits_lt_base (by norm_num) hd)

/-- The decimal rendering is never empty. -/
theorem natDec_ne_nil (v : Nat) : natDec v ≠ [] := by
  unfold natDec
  by_cases h : v = 0
  · simp [h]
  · rw [if_neg h]
    simp [Nat.digits_ne_nil_iff_ne_zero.mpr h]

/-- The numeric value of a rendered decimal is the rendered number. -/
theorem digitsVal_natDec (v : Nat) : digitsVal (natDec v) = v := by
  unfold digitsVal
  rw [takeWhile_eq_self_all _ (natDec_all_digits v)]
  by_cases h : v = 0
  · subst h
    decide
  · unfold natDec
    rw [if_neg h]
    have key : ∀ ds : List Nat, (∀ d ∈ ds, d < 10) →
        ((ds.map Nat.digitChar).reverse).foldl (fun a c => 10 * a + (c.toNat - 48)) 0 =
          Nat.ofDigits 10 ds := by
      intro ds
      induction ds with
      | nil => intro _; rfl
      | cons d t ih =>
        intro hall
        rw [List.map_cons, List.reverse_cons, List.foldl_append]
        rw [ih (fun x hx => hall x (by simp [hx]))]
        simp only [List.foldl_cons, List.foldl_nil]
        rw [digitChar_toNat (hall d (by simp))]
        rw [Nat.ofDigits_cons]
        ring
    rw [key _ (fun d hd => Nat.digits_lt_base (by norm_num) hd)]
    exact_mod_cast Nat.ofDigits_digits 10 v

/-- Bound on the numeric value of a digit string. -/
theorem digitsVal_lt (l : List Char) (h : ∀ c ∈ l, c.isDigit = true) :
    digitsVal l < 10 ^ l.length := by
  unfold digitsVal
  rw [takeWhile_eq_self_all _ h]
  suffices key : ∀ u : List Char, (∀ c ∈ u, c.isDigit = true) → ∀ a : Nat,
      u.foldl (fun a c => 10 * a + (c.toNat - 48)) a < (a + 1) * 10 ^ u.length by
    have h2 := key l h 0
    simpa using h2
  intro u
  induction u with
  | nil => intro _ a; simp
  | cons c t ih =>
    intro hu a
    simp only [List.foldl_cons, List.length_cons]
    have hc := isDigit_toNat_bounds (hu c (by simp))
    have ht := ih (fun x hx => hu x (by simp [hx])) (10 * a + (c.toNat - 48))
    have hstep : (10 * a + (c.toNat - 48) + 1) * 10 ^ t.length ≤
        (a + 1) * 10 ^ (t.length + 1) := by
      calc (10 * a + (c.toNat - 48) + 1) * 10 ^ t.length
          ≤ (10 * a + 10) * 10 ^ t.length := Nat.mul_le_mul_right _ (by omega)
        _ = (a + 1) * 10 ^ (t.length + 1) := by ring
    exact lt_of_lt_of_le ht hstep

/-- Length bound for the decimal rendering: a value below `10^k` prints
with at most `k` digits (for `k ≥ 1`). -/
theorem natDec_length_le (v k : Nat) (hk : 1 ≤ k) (h : v < 10 ^ k) :
    (natDec v).length ≤ k := by
  unfold natDec
  by_cases h0 : v = 0
  · rw [if_pos h0]
    simpa using hk
  · rw [if_neg h0]
    simp only [List.length_reverse, List.length_map]
    by_contra hc
    push_neg at hc
    have h1 : 10 ^ (Nat.digits 10 v).length ≤ 10 * v :=
      Nat.base_pow_length_digits_le 10 v (by norm_num) h0
    have h2 : 10 ^ (k + 1) ≤ 10 ^ (Nat.digits 10 v).length :=
      Nat.pow_le_pow_right (by norm_num) (by omega)
    have h3 : 10 ^ (k + 1) = 10 * 10 ^ k := by ring
    omega

/-- A value in int range survives the wrap. -/
theorem wrap32_id {x : Int} (h1 : 0 ≤ x) (h2 : x < 2 ^ 31) : wrap32 x = x := by
  unfold wrap32
  have e1 : (2 : Int) ^ 31 = 2147483648 := by norm_num
  have e2 : (2 : Int) ^ 32 = 4294967296 := by norm_num
  rw [e1] at h2
  rw [e1, e2, Int.emod_eq_of_lt (by omega) (by omega)]
  omega

/-- The last digit run of `a ++ [z] ++ b ++ cs` is `b` when `z` is not a
digit, `b` is a nonempty digit run, and `cs` holds no digit. -/
theorem lastDigitRun_sandwich (a : List Char) (z : Char) (b cs : List Char)
    (hz : z.isDigit = false) (hb : b ≠ [])
    (hbd : ∀ x ∈ b, x.isDigit = true) (hcd : ∀ x ∈ cs, x.isDigit = false) :
    lastDigitRun ((a ++ [z]) ++ b ++ cs) = b := by
  unfold lastDigitRun
  have h1 : ((a ++ [z]) ++ b ++ cs).reverse =
      cs.reverse ++ (b.reverse ++ (z :: a.reverse)) := by
    simp [List.reverse_append]
  rw [h1]
  rw [dropWhile_append_all _ _
    (fun x hx => by simp [hcd x (List.mem_reverse.mp hx)])]
  obtain ⟨y, t, hbt⟩ : ∃ y t, b.reverse = y :: t := by
    cases hbr : b.reverse with
    | nil => exact absurd (List.reverse_eq_nil_iff.mp hbr) hb
    | cons y t => exact ⟨y, t, rfl⟩
  have hy : y.isDigit = true := hbd y (by rw [← List.mem_reverse, hbt]; simp)
  rw [hbt, List.cons_append, dropWhile_eq_self_head _ _ (by simp [hy]),
    ← List.cons_append, ← hbt,
    takeWhile_append_all _ _ (fun x hx => hbd x (List.mem_reverse.mp hx)),
    List.takeWhile_cons, if_neg (by rw [hz]; simp), List.append_nil,
    List.reverse_reverse]

/-- Substitution walks over a `%`-free block and replaces the one `%d`. -/
theorem substPctD_append (a : List Char) (ha : '%' ∉ a) (b : List Char) (i : Int) :
    substPctD (a ++ '%' :: 'd' :: b) i = a ++ intDec i ++ b := by
  induction a with
  | nil => rfl
  | cons c t ih =>
    have hc : c ≠ '%' := fun h => ha (by simp [h])
    simp only [List.cons_append, substPctD, if_neg hc, List.append_eq]
    rw [ih (fun h => ha (by simp [h]))]

/-- Rendering a natural number through the int renderer. -/
theorem intDec_natCast (n : Nat) : intDec (n : Int) = natDec n := by
  unfold intDec
  rw [if_neg (by omega)]
  simp

/-- Elements reached by `getD` within bounds are members. -/
theorem getD_mem {l : List Char} {n : Nat} (h : n < l.length) : l.getD n ' ' ∈ l := by
  rw [List.getD_eq_getElem _ _ h]
  exact List.getElem_mem _

theorem flccat_parse_core_split (p0 : List Char) (z : Char) (run suf : List Char)
    (hz : z.isDigit = false) (hrun : run ≠ [])
    (hrd : ∀ c ∈ run, c.isDigit = true) (hsd : ∀ c ∈ suf, c.isDigit = false)
    (hlen : p0.length + 1 + run.length + suf.length ≤ 1023) :
    flccat_parse_core ((p0 ++ [z]) ++ run ++ suf) =
      some ((p0 ++ [z]) ++ ['%', 'd'] ++ suf,
            wrap32 (min ((digitsVal run : Int)) (2 ^ 63 - 1))) := by
  have hrl : 0 < run.length := List.length_pos.mpr hrun
  have hlenL : ((p0 ++ [z]) ++ run ++ suf).length =
      p0.length + 1 + run.length + suf.length := by
    simp only [List.length_append, List.length_cons, List.length_nil]
  have hs1 : scanNonDigit ((p0 ++ [z]) ++ run ++ suf)
      (((p0 ++ [z]) ++ run ++ suf).length - 1) = p0.length + run.length := by
    apply scanNonDigit_eq_of
    · omega
    · left
      rw [List.append_assoc, List.getD_append_right _ _ _ _
        (by simp only [List.length_append, List.length_cons, List.length_nil]; omega)]
      have e : p0.length + run.length - (p0 ++ [z]).length = run.length - 1 := by
        simp only [List.length_append, List.length_cons, List.length_nil]; omega
      rw [e, List.getD_append _ _ _ _ (by omega)]
      exact hrd _ (getD_mem (by omega))
    · intro j hj1 hj2
      rw [List.getD_append_right _ _ _ _
        (by simp only [List.length_append, List.length_cons, List.length_nil]; omega)]
      refine hsd _ (getD_mem ?_)
      simp only [List.length_append, List.length_cons, List.length_nil]
      omega
  have hs2 : scanDigit ((p0 ++ [z]) ++ run ++ suf) (p0.length + run.length) = p0.length := by
    apply scanDigit_eq_of
    · omega
    · left
      rw [List.append_assoc, List.getD_append _ _ _ _
        (by simp only [List.length_append, List.length_cons, List.length_nil]; omega),
        List.getD_append_right _ _ _ _ (le_refl _)]
      simpa using hz
    · intro j hj1 hj2
      rw [List.append_assoc, List.getD_append_right _ _ _ _
        (by simp only [List.length_append, List.length_cons, List.length_nil]; omega),
        List.getD_append _ _ _ _
        (by simp only [List.length_append, List.length_cons, List.length_nil]; omega)]
      refine hrd _ (getD_mem ?_)
      simp only [List.length_append, List.length_cons, List.length_nil]
      omega
  have hdv : digitsVal (run ++ suf) = digitsVal run := by
    unfold digitsVal
    rw [takeWhile_append_all _ _ hrd, takeWhile_eq_nil_all _ hsd, List.append_nil,
      takeWhile_eq_self_all _ hrd]
  have hdrop1 : ((p0 ++ [z]) ++ run ++ suf).drop (p0.length + 1) = run ++ suf := by
    rw [List.append_assoc]
    exact List.drop_left' (by simp)
  have htake1 : ((p0 ++ [z]) ++ run ++ suf).take (p0.length + 1) = p0 ++ [z] := by
    rw [List.append_assoc]
    exact List.take_left' (by simp)
  have hdrop2 : ((p0 ++ [z]) ++ run ++ suf).drop (p0.length + run.length + 1) = suf :=
    List.drop_left'
      (by simp only [List.length_append, List.length_cons, List.length_nil]; omega)
  simp only [flccat_parse_core]
  rw [if_neg (by simp)]
  rw [show min ((p0 ++ [z]) ++ run ++ suf).length 1023 =
    ((p0 ++ [z]) ++ run ++ suf).length from by rw [hlenL]; omega]
  rw [hs1, hs2, hdrop1]
  rw [if_pos (by omega : p0.length + 1 ≠ p0.length + run.length + 1)]
  rw [htake1, hdrop2]
  rw [show (p0 ++ [z] ++ run ++ suf).length - (p0.length + run.length + 1) = suf.length
    from by rw [hlenL]; omega]
  rw [List.take_length]
  rw [show strtol10 (run ++ suf) = min ((digitsVal run : Int)) (2 ^ 63 - 1) from by
    unfold strtol10; rw [hdv]]

/-- C4 (counterexample): the seed "100" consists of a single trailing
digit run of value 100, yet the parser produces template "1%d" with
starting index 0 (the scan cannot move `num_begin` to index 0), and
instantiating the template with the parsed index yields "10", whose digit
run has numeric value 10, not 100. -/
theorem c4_parse_at_start_counterexample :
    flccat_parse_core ['1', '0', '0'] = some (['1', '%', 'd'], 0) ∧
    filename_from_idx ['1', '%', 'd'] 0 = ['1', '0'] ∧
    digitsVal (lastDigitRun ['1', '0']) = 10 ∧
    digitsVal (lastDigitRun ['1', '0', '0']) = 100 := by
  refine ⟨by decide, by decide, by decide, by decide⟩

/-- C4 (amended): for every seed `p0 ++ [z] ++ run ++ suf` — last digit
run `run` preceded by at least one character ending in the non-digit `z`,
digit-free tail `suf` — of length at most 1023, containing no `%`, and
whose run value fits a C int, the parser recovers
`template = (p0 ++ [z]) ++ "%d" ++ suf` with the run's numeric value as
starting index, and instantiating the template with the parsed index
yields a filename whose trailing digit run has the same numeric value as
the original trailing digits (the zero-padding width is not preserved). -/
theorem c4_parser_value_roundtrip (p0 : List Char) (z : Char) (run suf : List Char)
    (hz : z.isDigit = false) (hrun : run ≠ [])
    (hrd : ∀ c ∈ run, c.isDigit = true) (hsd : ∀ c ∈ suf, c.isDigit = false)
    (hlen : p0.length + 1 + run.length + suf.length ≤ 1023)
    (hpct1 : '%' ∉ p0 ++ [z]) (_hpct2 : '%' ∉ suf)
    (hval : digitsVal run < 2 ^ 31) :
    flccat_parse_core ((p0 ++ [z]) ++ run ++ suf) =
      some ((p0 ++ [z]) ++ ['%', 'd'] ++ suf, ((digitsVal run : Int))) ∧
    digitsVal (lastDigitRun ((p0 ++ [z]) ++ run ++ suf)) = digitsVal run ∧
    filename_from_idx ((p0 ++ [z]) ++ ['%', 'd'] ++ suf) ((digitsVal run : Int)) =
      (p0 ++ [z]) ++ natDec (digitsVal run) ++ suf ∧
    digitsVal (lastDigitRun (filename_from_idx ((p0 ++ [z]) ++ ['%', 'd'] ++ suf)
      ((digitsVal run : Int)))) = digitsVal run := by
  have hv31 : ((digitsVal run : Int)) < 2 ^ 31 := by exact_mod_cast hval
  have hminv : min ((digitsVal run : Int)) (2 ^ 63 - 1) = ((digitsVal run : Int)) := by
    apply min_eq_left
    have e : (2 : Int) ^ 31 = 2147483648 := by norm_num
    have e2 : (2 : Int) ^ 63 - 1 = 9223372036854775807 := by norm_num
    rw [e] at hv31
    rw [e2]
    omega
  have hwrap : wrap32 ((digitsVal run : Int)) = ((digitsVal run : Int)) :=
    wrap32_id (Int.natCast_nonneg _) hv31
  have hparse := flccat_parse_core_split p0 z run suf hz hrun hrd hsd hlen
  rw [hminv, hwrap] at hparse
  have hfile : filename_from_idx ((p0 ++ [z]) ++ ['%', 'd'] ++ suf)
      ((digitsVal run : Int)) = (p0 ++ [z]) ++ natDec (digitsVal run) ++ suf := by
    unfold filename_from_idx
    have e : (p0 ++ [z]) ++ ['%', 'd'] ++ suf = (p0 ++ [z]) ++ ('%' :: 'd' :: suf) := by
      simp
    rw [e, substPctD_append _ hpct1 _ _, intDec_natCast]
    apply List.take_of_length_le
    have hnl := natDec_length_le (digitsVal run) run.length
      (List.length_pos.mpr hrun) (digitsVal_lt run hrd)
    simp only [List.length_append, List.length_cons, List.length_nil]
    omega
  refine ⟨hparse, ?_, hfile, ?_⟩
  · rw [lastDigitRun_sandwich p0 z run suf hz hrun hrd hsd]
  · rw [hfile,
      lastDigitRun_sandwich p0 z (natDec (digitsVal run)) suf hz (natDec_ne_nil _)
        (natDec_all_digits _) hsd,
      digitsVal_natDec]

/-- Witness for `c4_parser_value_roundtrip` at the seed "a07.x"
(template "a%d.x", index 7, instantiated filename "a7.x"). -/
theorem c4_parser_value_roundtrip_witness :
    flccat_parse_core (([] ++ ['a']) ++ ['0', '7'] ++ ['.', 'x']) =
      some (([] ++ ['a']) ++ ['%', 'd'] ++ ['.', 'x'], ((digitsVal ['0', '7'] : Int))) ∧
    digitsVal (lastDigitRun (([] ++ ['a']) ++ ['0', '7'] ++ ['.', 'x'])) =
      digitsVal ['0', '7'] ∧
    filename_from_idx (([] ++ ['a']) ++ ['%', 'd'] ++ ['.', 'x'])
      ((digitsVal ['0', '7'] : Int)) =
      ([] ++ ['a']) ++ natDec (digitsVal ['0', '7']) ++ ['.', 'x'] ∧
    digitsVal (lastDigitRun (filename_from_idx (([] ++ ['a']) ++ ['%', 'd'] ++ ['.', 'x'])
      ((digitsVal ['0', '7'] : Int)))) = digitsVal ['0', '7'] :=
  c4_parser_value_roundtrip [] 'a' ['0', '7'] ['.', 'x'] (by decide) (by decide)
    (by decide) (by decide) (by decide) (by decide) (by decide) (by decide)
